import Mathlib

/-
Verification development for the AI frontend-builder repository.

The program keeps an ordered list of named text files (`FileData`), feeds an
incrementally arriving text stream through a line-buffered demultiplexer
(`handleSubmit`'s feed loop), derives a preview document (`htmlContent`),
and offers file-management operations (create, delete, reconcile active).

Strings are embedded as `List Char` (the JS code only ever manipulates
strings through indexOf / substring / startsWith / endsWith / trim /
toLowerCase, all of which are modelled character-by-character below).
-/

namespace AppModel

/-- One project file: `{ fileName, content }` from `CodeWorkspace.tsx`. -/
structure FileData where
  fileName : List Char
  content : List Char
deriving DecidableEq, Repr

/-- The demuxer-relevant state of `App` during `handleSubmit`:
the `files` state, the `activeFileName` state and the local
`currentFileName` variable of the feed loop. -/
structure Demux where
  files : List FileData
  active : List Char
  current : Option (List Char)
deriving DecidableEq, Repr

/-- The literal marker `'>>>FILE:'` used by the stream protocol. -/
def markerChars : List Char := (">>>FILE:").data

/-- JS `String.prototype.startsWith`: `s` starts with `p`. -/
def leadMatch (p s : List Char) : Bool := s.take p.length == p

/-- JS `String.prototype.endsWith`: `s` ends with `suf`. -/
def tailMatch (suf s : List Char) : Bool := s.drop (s.length - suf.length) == suf

/-- JS `String.prototype.trim` (ASCII whitespace). -/
def trimChars (cs : List Char) : List Char :=
  ((cs.dropWhile Char.isWhitespace).reverse.dropWhile Char.isWhitespace).reverse

/-- Processing of one complete line by the feed loop of `handleSubmit`
(src/unnamed/part_000 lines 197-219): a line starting with `>>>FILE:`
selects (and, when new, appends) the named file and makes it active;
any other line is appended (plus a newline) to the current target,
or discarded when no target is set. -/
def processLine (line : List Char) (st : Demux) : Demux :=
  if leadMatch markerChars line then
    let newFileName := trimChars (line.drop markerChars.length)
    if newFileName = [] then st
    else
      { files :=
          if st.files.any (fun f => f.fileName == newFileName) then st.files
          else st.files ++ [{ fileName := newFileName, content := [] }],
        active := newFileName,
        current := some newFileName }
  else
    match st.current with
    | some t =>
        { st with files :=
            st.files.map (fun f =>
              if f.fileName == t then { f with content := f.content ++ line ++ ['\n'] } else f) }
    | none => st

/-- JS `buffer.indexOf('\n')` followed by the two `substring` calls:
splits off the first newline-terminated line, `none` when the buffer
holds no newline. -/
def splitAtNewline : List Char → Option (List Char × List Char)
  | [] => none
  | c :: rest =>
      if c = '\n' then some ([], rest)
      else
        match splitAtNewline rest with
        | none => none
        | some (l, r) => some (c :: l, r)

theorem spl_length : ∀ (u l r : List Char), splitAtNewline u = some (l, r) → r.length < u.length := by
  intro u
  induction u with
  | nil => intro l r h; simp [splitAtNewline] at h
  | cons c rest ih =>
    intro l r h
    by_cases hc : c = '\n'
    · simp only [splitAtNewline, if_pos hc] at h
      simp at h
      obtain ⟨h1, h2⟩ := h
      subst h2
      simp
    · simp only [splitAtNewline, if_neg hc] at h
      cases hsp : splitAtNewline rest with
      | none => rw [hsp] at h; simp at h
      | some p =>
        obtain ⟨l2, r2⟩ := p
        rw [hsp] at h
        simp at h
        obtain ⟨h1, h2⟩ := h
        subst h2
        have := ih l2 r2 hsp
        simp only [List.length_cons]
        omega

/-- The `while ((lineEndIndex = buffer.indexOf('\n')) !== -1)` loop of
`handleSubmit`: repeatedly extract and process complete lines from the
front of the buffer; the newline-less remainder stays buffered. -/
def processAll (d : Demux) (buffer : List Char) : Demux × List Char :=
  match h : splitAtNewline buffer with
  | none => (d, buffer)
  | some (line, rest) => processAll (processLine line d) rest
termination_by buffer.length
decreasing_by exact spl_length _ _ _ h

theorem processAll_none (buffer : List Char) (d : Demux)
    (h : splitAtNewline buffer = none) : processAll d buffer = (d, buffer) := by
  rw [processAll]
  split
  · rfl
  · rename_i line rest heq
    rw [h] at heq
    exact absurd heq (by simp)

theorem processAll_some (buffer line rest : List Char) (d : Demux)
    (h : splitAtNewline buffer = some (line, rest)) :
    processAll d buffer = processAll (processLine line d) rest := by
  rw [processAll]
  split
  · rename_i heq
    rw [h] at heq
    exact absurd heq (by simp)
  · rename_i l r heq
    rw [h] at heq
    simp at heq
    obtain ⟨h1, h2⟩ := heq
    rw [h1, h2]

theorem spl_append : ∀ (u v l r : List Char), splitAtNewline u = some (l, r) →
    splitAtNewline (u ++ v) = some (l, r ++ v) := by
  intro u
  induction u with
  | nil => intro v l r h; simp [splitAtNewline] at h
  | cons c rest ih =>
    intro v l r h
    by_cases hc : c = '\n'
    · simp only [splitAtNewline, if_pos hc] at h
      simp at h
      obtain ⟨h1, h2⟩ := h
      subst h1; subst h2
      simp only [List.cons_append, splitAtNewline, if_pos hc]
      rfl
    · simp only [splitAtNewline, if_neg hc] at h
      cases hsp : splitAtNewline rest with
      | none => rw [hsp] at h; simp at h
      | some p =>
        obtain ⟨l2, r2⟩ := p
        rw [hsp] at h
        simp at h
        obtain ⟨h1, h2⟩ := h
        subst h1; subst h2
        simp only [List.cons_append, splitAtNewline, if_neg hc]
        have hja : rest.append v = rest ++ v := rfl
        rw [hja, ih v l2 r2 hsp]

/-- One call of the feed loop body: append the chunk to the pending buffer,
then process every complete line (`buffer += chunk.text` followed by the
while loop in `handleSubmit`). -/
def feed (s : Demux × List Char) (chunk : List Char) : Demux × List Char :=
  processAll s.1 (s.2 ++ chunk)

/-- The whole `for await (const chunk of stream)` loop over a list of chunks. -/
def feedList (s : Demux × List Char) (chunks : List (List Char)) : Demux × List Char :=
  chunks.foldl feed s

/-- The post-loop flush of `handleSubmit` (src/unnamed/part_000 lines 223-232):
`if (currentFileName && buffer.length > 0)` append the remaining buffer
verbatim to the current target. -/
def finish (st : Demux) (buffer : List Char) : Demux :=
  match st.current with
  | some t =>
      if buffer.length > 0 then
        { st with files :=
            st.files.map (fun f =>
              if f.fileName == t then { f with content := f.content ++ buffer } else f) }
      else st
  | none => st

/-- `finish` applied to a (demux state, pending buffer) pair. -/
def finishRun (s : Demux × List Char) : Demux := finish s.1 s.2

/-- The state at the start of `handleSubmit`: `setFiles([])`,
`currentFileName = null`, `buffer = ''`; `activeFileName` keeps its
previous value. -/
def initialRun (active : List Char) : Demux × List Char :=
  ({ files := [], active := active, current := none }, [])

/-- Concrete sample values used to evaluate the theorems below. -/
def wNameA : List Char := ("a.js").data

def wNameB : List Char := ("b.css").data

def wStA : Demux :=
  { files := [{ fileName := wNameA, content := ("x\n").data }],
    active := wNameA, current := some wNameA }

def wLineB : List Char := (">>>FILE: b.css").data

def wLineEmpty : List Char := (">>>FILE:   ").data

def wLineContent : List Char := ("console.log(1);").data

def wTail : List Char := ("tail").data

/-- The error banner text set by the catch block of `handleSubmit`. -/
def genFailText (msg : List Char) : List Char :=
  ("Failed to generate code: ").data ++ msg ++
    (". Please check your API key and try again.").data

/-- Outcome of one generation request: final files, active name, error. -/
structure GenOutcome where
  files : List FileData
  active : List Char
  error : Option (List Char)
deriving DecidableEq, Repr

/-- `handleSubmit` as a function of the stream's behaviour: the chunks
delivered before the stream either completed (`none`) or threw a
transport error (`some msg`). On completion the pending buffer is
flushed; on an error the catch block (src/unnamed/part_000 lines
234-237) only records the message, keeping the partial FileSet. The
final formatting pass delegates to the external pretty-printer, an
out-of-scope collaborator, and is not part of this model. -/
def handleSubmit (active0 : List Char) (chunks : List (List Char))
    (streamError : Option (List Char)) : GenOutcome :=
  let fed := feedList (initialRun active0) chunks
  match streamError with
  | none =>
      let done := finish fed.1 fed.2
      { files := done.files, active := done.active, error := none }
  | some msg =>
      { files := fed.1.files, active := fed.1.active, error := some (genFailText msg) }

/-- The reconciliation effect of `App` (src/unnamed/part_000 lines
105-110): whenever the active name no longer names an entry, fall back
to the first entry's name, or to the empty selection for an empty set. -/
def reconcileActive (files : List FileData) (active : List Char) : List Char :=
  if files.any (fun f => f.fileName == active) then active
  else
    match files with
    | [] => []
    | f :: _ => f.fileName

/-- `handleDeleteFile` of `CodeWorkspace.tsx` (lines 78-88): remove the
entry and, when it was the active one, fall back to the first remaining
name (or the empty selection). -/
def handleDeleteFile (files : List FileData) (active fileNameToDelete : List Char) :
    List FileData × List Char :=
  let newFiles := files.filter (fun f => f.fileName != fileNameToDelete)
  if active == fileNameToDelete then
    (newFiles,
      match newFiles with
      | [] => []
      | f :: _ => f.fileName)
  else (newFiles, active)

inductive CreateFileError where
  | emptyName
  | duplicateName
deriving DecidableEq, Repr

/-- JS `String.prototype.toLowerCase`, character by character. -/
def toLowerChars (cs : List Char) : List Char := cs.map Char.toLower

/-- `NewFileModal.handleSubmit` (Modals.tsx lines 116-131) composed with
`handleCreateFile` (CodeWorkspace.tsx lines 71-76): validate the trimmed
name (non-empty, not already present under case-insensitive comparison)
and on success append an empty entry and make it active; on either
failure only an error is reported and the workspace is untouched. -/
def createFile (files : List FileData) (active name : List Char) :
    (List FileData × List Char) × Option CreateFileError :=
  let trimmedName := trimChars name
  if trimmedName = [] then ((files, active), some CreateFileError.emptyName)
  else if files.any (fun f => toLowerChars f.fileName == toLowerChars trimmedName) then
    ((files, active), some CreateFileError.duplicateName)
  else ((files ++ [{ fileName := trimmedName, content := [] }], trimmedName), none)

/-- The possible outcomes of one snippet request as seen by
`handleFetchSnippets`: a transport error thrown by the API call, or a
parsed response whose `snippets` field either matches the expected
array-of-strings shape (`some`) or does not (`none`). -/
inductive SnippetResponse where
  | transportError (msg : List Char)
  | parsed (snips : Option (List (List Char)))
deriving DecidableEq

def SnippetResponse.isFailure : SnippetResponse → Bool
  | SnippetResponse.transportError _ => true
  | SnippetResponse.parsed none => true
  | SnippetResponse.parsed (some _) => false

/-- The snippet-related state of `App`. -/
structure SnippetState where
  snippets : List (List Char)
  snippetsError : Option (List Char)
  isSnippetsLoading : Bool
deriving DecidableEq, Repr

def snippetFailText (msg : List Char) : List Char :=
  ("Failed to fetch snippets: ").data ++ msg

def invalidSnippetMsg : List Char := ("Invalid snippet format from API.").data

/-- `handleFetchSnippets` (src/unnamed/part_000 lines 123-168): the prior
snippet state is cleared up front (`setSnippetsError(null)`,
`setSnippets([])`); a shape mismatch throws, the catch block records
only the error message, and `finally` clears the loading flag. -/
def handleFetchSnippets (_prev : SnippetState) (resp : SnippetResponse) : SnippetState :=
  let cleared : SnippetState :=
    { snippets := [], snippetsError := none, isSnippetsLoading := true }
  let afterTry :=
    match resp with
    | SnippetResponse.parsed (some snips) => { cleared with snippets := snips }
    | SnippetResponse.parsed none =>
        { cleared with snippetsError := some (snippetFailText invalidSnippetMsg) }
    | SnippetResponse.transportError msg =>
        { cleared with snippetsError := some (snippetFailText msg) }
  { afterTry with isSnippetsLoading := false }

/-- The fixed fallback document of `htmlContent`. -/
def fallbackHtml : List Char :=
  ("<html><body><p>No index.html file found.</p></body></html>").data

def htmlExt : List Char := (".html").data

def cssExt : List Char := (".css").data

def jsExt : List Char := (".js").data

def headCloseTag : List Char := ("</head>").data

def bodyCloseTag : List Char := ("</body>").data

def styleOpenTag : List Char := ("<style>").data

def styleCloseTag : List Char := ("</style>").data

def scriptOpenTag : List Char := ("<script>").data

def scriptCloseTag : List Char := ("</script>").data

def jsJoinSep : List Char := (";\n").data

def dollarChar : Char := Char.ofNat 36

def backquoteChar : Char := Char.ofNat 96

def quoteChar : Char := Char.ofNat 39

/-- ECMAScript GetSubstitution for a string replacement against a pattern
with no capture groups (the composer's patterns have none): inside the
replacement, `$$` expands to a dollar, `$&` to the matched text, a dollar
followed by a backquote to the part of the subject before the match, and
a dollar followed by a straight quote to the part after it; any other
dollar is copied literally (which also gives the literal text ECMAScript
produces for `$n` and `$<` when there are no capture groups). -/
def getSubstitution (matched pre post : List Char) : List Char → List Char
  | [] => []
  | c :: rest =>
      if c = dollarChar then
        match rest with
        | [] => [c]
        | d :: rest2 =>
            if d = dollarChar then dollarChar :: getSubstitution matched pre post rest2
            else if d = '&' then matched ++ getSubstitution matched pre post rest2
            else if d = backquoteChar then pre ++ getSubstitution matched pre post rest2
            else if d = quoteChar then post ++ getSubstitution matched pre post rest2
            else c :: getSubstitution matched pre post (d :: rest2)
      else c :: getSubstitution matched pre post rest

/-- Index of the first occurrence of `pat` in the subject, `none` when
there is no occurrence (the position of the regex match in
`String.prototype.replace`). -/
def firstMatchPos (pat : List Char) : List Char → Option Nat
  | [] => if pat == [] then some 0 else none
  | c :: rest =>
      if leadMatch pat (c :: rest) then some 0
      else
        match firstMatchPos pat rest with
        | none => none
        | some i => some (i + 1)

/-- JS `String.prototype.replace` with a non-global capture-free pattern
and a string replacement: splice the `$`-expanded replacement in place of
the first occurrence of `pat`, leaving the string unchanged when there is
none. -/
def replaceFirst (pat repl s : List Char) : List Char :=
  match firstMatchPos pat s with
  | none => s
  | some i =>
      let pre := s.take i
      let post := s.drop (i + pat.length)
      pre ++ getSubstitution pat pre post repl ++ post

/-- `files.filter(f => f.fileName.endsWith('.css'))`. -/
def cssFilesOf (files : List FileData) : List FileData :=
  files.filter (fun f => tailMatch cssExt f.fileName)

/-- `files.filter(f => f.fileName.endsWith('.js'))`. -/
def jsFilesOf (files : List FileData) : List FileData :=
  files.filter (fun f => tailMatch jsExt f.fileName)

/-- The CSS step of `htmlContent`: when at least one `.css` file exists,
join their contents with newlines and splice the result, wrapped in a
style element, in place of the first `</head>`. -/
def injectCss (files : List FileData) (doc : List Char) : List Char :=
  let cssFiles := cssFilesOf files
  if cssFiles.length > 0 then
    let cssContent := List.intercalate ['\n'] (cssFiles.map (fun f => f.content))
    replaceFirst headCloseTag (styleOpenTag ++ cssContent ++ styleCloseTag ++ headCloseTag) doc
  else doc

/-- The JS step of `htmlContent`: when at least one `.js` file exists,
join their contents with `;\n` and splice the result, wrapped in a
script element, in place of the first `</body>`. -/
def injectJs (files : List FileData) (doc : List Char) : List Char :=
  let jsFiles := jsFilesOf files
  if jsFiles.length > 0 then
    let jsContent := List.intercalate jsJoinSep (jsFiles.map (fun f => f.content))
    replaceFirst bodyCloseTag (scriptOpenTag ++ jsContent ++ scriptCloseTag ++ bodyCloseTag) doc
  else doc

/-- `htmlContent` (src/unnamed/part_000 lines 253-278): the preview is the
first `.html` file's content with CSS and JS inlined, or a fixed
fallback document when no `.html` file exists. -/
def htmlContent (files : List FileData) : List Char :=
  match files.find? (fun f => tailMatch htmlExt f.fileName) with
  | none => fallbackHtml
  | some htmlFile => injectJs files (injectCss files htmlFile.content)

/-- Concrete FileSets used to evaluate the composition theorems. -/
def wC3Files : List FileData :=
  [{ fileName := ("index.html").data, content := ("<head></head><body></body>").data },
   { fileName := ("style.css").data, content := ("h1").data },
   { fileName := ("script.js").data, content := ("x()").data }]

def wC3Base : FileData :=
  { fileName := ("index.html").data, content := ("<head></head><body></body>").data }

def cxFiles : List FileData :=
  [{ fileName := ("index.html").data, content := ("<head></head>").data },
   { fileName := ("style.css").data, content := [] }]

def cx2Files : List FileData :=
  [{ fileName := ("index.html").data, content := ("<head></head>").data },
   { fileName := ("style.css").data, content := ("x$&y").data }]

def wSnipState : SnippetState :=
  { snippets := [("old").data], snippetsError := none, isSnippetsLoading := false }

theorem processAll_append : ∀ (n : Nat) (u : List Char), u.length ≤ n →
    ∀ (d : Demux) (v : List Char),
    processAll (processAll d u).1 ((processAll d u).2 ++ v) = processAll d (u ++ v) := by
  intro n
  induction n with
  | zero =>
    intro u hu d v
    have hnil : u = [] := List.eq_nil_of_length_eq_zero (Nat.le_zero.mp hu)
    subst hnil
    rw [processAll_none [] d rfl]
  | succ n ih =>
    intro u hu d v
    cases h : splitAtNewline u with
    | none =>
      rw [processAll_none u d h]
    | some p =>
      obtain ⟨l, r⟩ := p
      rw [processAll_some u l r d h, processAll_some (u ++ v) l (r ++ v) d (spl_append u v l r h)]
      exact ih r (by have := spl_length u l r h; omega) (processLine l d) v

theorem feed_append (s : Demux × List Char) (a b : List Char) :
    feed (feed s a) b = feed s (a ++ b) := by
  show processAll (feed s a).1 ((feed s a).2 ++ b) = processAll s.1 (s.2 ++ (a ++ b))
  rw [show s.2 ++ (a ++ b) = (s.2 ++ a) ++ b from (List.append_assoc _ _ _).symm]
  exact processAll_append (s.2 ++ a).length (s.2 ++ a) le_rfl s.1 b

theorem feedList_after_feed : ∀ (chunks : List (List Char)) (s : Demux × List Char)
    (a : List Char), feedList (feed s a) chunks = feed s (a ++ chunks.flatten) := by
  intro chunks
  induction chunks with
  | nil => intro s a; simp [feedList]
  | cons c cs ih =>
    intro s a
    show feedList (feed (feed s a) c) cs = _
    rw [feed_append, ih, List.append_assoc]
    rfl

/-- C1: chunk-boundary independence of the stream demuxer — feeding any
sequence of chunks one at a time through the feed loop and then flushing
with `finish` produces exactly the same final FileSet (names, order and
contents) as feeding the whole concatenated text in a single call. -/
theorem chunk_boundary_independence (active : List Char) (chunks : List (List Char)) :
    (finishRun (feedList (initialRun active) chunks)).files =
      (finishRun (feed (initialRun active) chunks.flatten)).files := by
  cases chunks with
  | nil =>
    have h0 : feed (initialRun active) (List.flatten ([] : List (List Char))) =
        initialRun active := by
      show processAll (initialRun active).1
        ((initialRun active).2 ++ List.flatten ([] : List (List Char))) = initialRun active
      rw [show (initialRun active).2 ++ List.flatten ([] : List (List Char)) =
        ([] : List Char) from rfl]
      rw [processAll_none [] (initialRun active).1 rfl]
      rfl
    show (finishRun (feedList (initialRun active) [])).files = _
    rw [show feedList (initialRun active) [] = initialRun active from rfl, h0]
  | cons c cs =>
    show (finishRun (feedList (feed (initialRun active) c) cs)).files = _
    rw [feedList_after_feed]
    rfl

theorem any_name_iff (files : List FileData) (n : List Char) :
    files.any (fun f => f.fileName == n) = true ↔ ∃ f ∈ files, f.fileName = n := by
  simp [List.any_eq_true]

theorem processLine_marker (st : Demux) (line n : List Char)
    (hm : leadMatch markerChars line = true)
    (hn : trimChars (line.drop markerChars.length) = n)
    (hne : n ≠ []) :
    processLine line st =
      { files := if st.files.any (fun f => f.fileName == n) then st.files
                 else st.files ++ [{ fileName := n, content := [] }],
        active := n, current := some n } := by
  unfold processLine
  rw [hm]
  simp only [ite_true, hn]
  rw [if_neg hne]

theorem processLine_marker_empty (st : Demux) (line : List Char)
    (hm : leadMatch markerChars line = true)
    (he : trimChars (line.drop markerChars.length) = []) :
    processLine line st = st := by
  unfold processLine
  rw [hm]
  simp only [ite_true, he]

theorem processLine_content (st : Demux) (t line : List Char)
    (hc : st.current = some t) (hm : leadMatch markerChars line = false) :
    processLine line st =
      { st with files := st.files.map (fun f =>
          if f.fileName == t then { f with content := f.content ++ line ++ ['\n'] } else f) } := by
  unfold processLine
  rw [hm]
  simp only [Bool.false_eq_true, ite_false, hc]

/-- C2: processing a complete line that starts with the literal `>>>FILE:`
marker and whose remainder trims to a non-empty name `n` makes `n` the
current stream target and the active file; when no entry named `n` exists
a new entry with empty content is appended at the end, and when one
already exists the FileSet is left untouched (no duplicate, no reset). -/
theorem marker_line_rule (st : Demux) (line n : List Char)
    (hm : leadMatch markerChars line = true)
    (hn : trimChars (line.drop markerChars.length) = n)
    (hne : n ≠ []) :
    (processLine line st).current = some n ∧
    (processLine line st).active = n ∧
    ((∃ f ∈ st.files, f.fileName = n) → (processLine line st).files = st.files) ∧
    ((∀ f ∈ st.files, f.fileName ≠ n) →
      (processLine line st).files = st.files ++ [{ fileName := n, content := [] }]) := by
  rw [processLine_marker st line n hm hn hne]
  refine ⟨rfl, rfl, ?_, ?_⟩
  · intro hex
    simp only
    rw [if_pos ((any_name_iff st.files n).mpr hex)]
  · intro hall
    simp only
    rw [if_neg ?_]
    intro hany
    obtain ⟨f, hmem, hfn⟩ := (any_name_iff st.files n).mp hany
    exact hall f hmem hfn

theorem marker_line_rule_witness :
    (leadMatch markerChars wLineB = true ∧
     trimChars (wLineB.drop markerChars.length) = wNameB ∧
     wNameB ≠ []) ∧
    ((processLine wLineB wStA).current = some wNameB ∧
     (processLine wLineB wStA).active = wNameB ∧
     ((∃ f ∈ wStA.files, f.fileName = wNameB) → (processLine wLineB wStA).files = wStA.files) ∧
     ((∀ f ∈ wStA.files, f.fileName ≠ wNameB) →
       (processLine wLineB wStA).files =
         wStA.files ++ [{ fileName := wNameB, content := [] }])) :=
  ⟨⟨by decide, by decide, by decide⟩,
   marker_line_rule wStA wLineB wNameB (by decide) (by decide) (by decide)⟩

/-- C4: a marker line whose name trims to the empty string is ignored —
the state (files, active file, current target) is unchanged, and any
subsequent non-marker line is still appended (with its newline) to the
previous target, not discarded. -/
theorem empty_name_marker_tolerance (st : Demux) (t line : List Char)
    (hc : st.current = some t)
    (hm : leadMatch markerChars line = true)
    (he : trimChars (line.drop markerChars.length) = []) :
    processLine line st = st ∧
    ∀ l2, leadMatch markerChars l2 = false →
      (processLine l2 (processLine line st)).files =
        st.files.map (fun f =>
          if f.fileName == t then { f with content := f.content ++ l2 ++ ['\n'] } else f) := by
  have hid : processLine line st = st := processLine_marker_empty st line hm he
  refine ⟨hid, ?_⟩
  intro l2 hm2
  rw [hid, processLine_content st t l2 hc hm2]

theorem empty_name_marker_tolerance_witness :
    (wStA.current = some wNameA ∧
     leadMatch markerChars wLineEmpty = true ∧
     trimChars (wLineEmpty.drop markerChars.length) = []) ∧
    (processLine wLineEmpty wStA = wStA ∧
     ∀ l2, leadMatch markerChars l2 = false →
       (processLine l2 (processLine wLineEmpty wStA)).files =
         wStA.files.map (fun f =>
           if f.fileName == wNameA then { f with content := f.content ++ l2 ++ ['\n'] }
           else f)) :=
  ⟨⟨by decide, by decide, by decide⟩,
   empty_name_marker_tolerance wStA wNameA wLineEmpty (by decide) (by decide) (by decide)⟩

/-- C9: frame property of content routing — one non-marker line with a
current target set only appends the line plus a newline to entries named
by the target; every other entry, the number and order of entries, the
active file and the current target are unchanged. -/
theorem content_line_frame (st : Demux) (t line : List Char)
    (hc : st.current = some t) (hm : leadMatch markerChars line = false) :
    (processLine line st).files.length = st.files.length ∧
    (processLine line st).files.map (fun f => f.fileName) =
      st.files.map (fun f => f.fileName) ∧
    (∀ (i : Nat) (f : FileData), st.files[i]? = some f → f.fileName ≠ t →
      (processLine line st).files[i]? = some f) ∧
    (∀ (i : Nat) (f : FileData), st.files[i]? = some f → f.fileName = t →
      (processLine line st).files[i]? =
        some { f with content := f.content ++ line ++ ['\n'] }) ∧
    (processLine line st).active = st.active ∧
    (processLine line st).current = st.current := by
  rw [processLine_content st t line hc hm]
  refine ⟨by simp, ?_, ?_, ?_, rfl, rfl⟩
  · simp only [List.map_map]
    apply List.map_congr_left
    intro f _
    by_cases hf : f.fileName = t <;> simp [hf]
  · intro i f hi hft
    simp only [List.getElem?_map, hi, Option.map_some']
    rw [if_neg (by simp [hft])]
  · intro i f hi hft
    simp only [List.getElem?_map, hi, Option.map_some']
    rw [if_pos (by simp [hft])]

theorem content_line_frame_witness :
    (wStA.current = some wNameA ∧ leadMatch markerChars wLineContent = false) ∧
    ((processLine wLineContent wStA).files.length = wStA.files.length ∧
     (processLine wLineContent wStA).files.map (fun f => f.fileName) =
       wStA.files.map (fun f => f.fileName) ∧
     (∀ (i : Nat) (f : FileData), wStA.files[i]? = some f → f.fileName ≠ wNameA →
       (processLine wLineContent wStA).files[i]? = some f) ∧
     (∀ (i : Nat) (f : FileData), wStA.files[i]? = some f → f.fileName = wNameA →
       (processLine wLineContent wStA).files[i]? =
         some { f with content := f.content ++ wLineContent ++ ['\n'] }) ∧
     (processLine wLineContent wStA).active = wStA.active ∧
     (processLine wLineContent wStA).current = wStA.current) :=
  ⟨⟨by decide, by decide⟩,
   content_line_frame wStA wNameA wLineContent (by decide) (by decide)⟩

/-- C5: the final-remainder rule of the post-stream flush — with a current
target set and a non-empty newline-less pending buffer, the buffer is
appended verbatim (no newline added) to the target entry's content;
with no target, or with an empty buffer, nothing changes. -/
theorem finish_remainder_rule (st : Demux) (t buffer : List Char)
    (hc : st.current = some t) (hnl : '\n' ∉ buffer) (hne : buffer ≠ []) :
    (finish st buffer).files =
      st.files.map (fun f =>
        if f.fileName == t then { f with content := f.content ++ buffer } else f) ∧
    (∀ s2 b2, s2.current = none → finish s2 b2 = s2) ∧
    finish st [] = st := by
  refine ⟨?_, ?_, ?_⟩
  · unfold finish
    rw [hc]
    dsimp only
    rw [if_pos (show buffer.length > 0 by
      cases buffer with
      | nil => exact absurd rfl hne
      | cons a b => simp)]
  · intro s2 b2 h2
    unfold finish
    rw [h2]
  · unfold finish
    rw [hc]
    dsimp only
    simp

theorem finish_remainder_rule_witness :
    (wStA.current = some wNameA ∧ '\n' ∉ wTail ∧ wTail ≠ []) ∧
    ((finish wStA wTail).files =
       wStA.files.map (fun f =>
         if f.fileName == wNameA then { f with content := f.content ++ wTail } else f) ∧
     (∀ s2 b2, s2.current = none → finish s2 b2 = s2) ∧
     finish wStA [] = wStA) :=
  ⟨⟨by decide, by decide, by decide⟩,
   finish_remainder_rule wStA wNameA wTail (by decide) (by decide) (by decide)⟩

/-- C6: partial success on transport failure — when the stream throws after
some prefix of chunks, `handleSubmit` keeps exactly the FileSet demuxed
from that prefix (no rollback, no entry removed, no content cleared) and
surfaces an error message alongside it. -/
theorem transport_failure_partial_success (active0 msg : List Char)
    (chunks : List (List Char)) :
    (handleSubmit active0 chunks (some msg)).files =
      (feedList (initialRun active0) chunks).1.files ∧
    (handleSubmit active0 chunks (some msg)).error = some (genFailText msg) :=
  ⟨rfl, rfl⟩

/-- C7: active-file reconciliation — when the active name still names an
entry it is kept, otherwise it is reset to the first entry's name (or to
the empty selection for an empty set); deleting the active file removes
its entry and reassigns active to the first remaining name (or empty),
and deleting the sole remaining file is permitted and empties the set. -/
theorem active_file_reconciliation (files : List FileData) (active : List Char) :
    ((∃ f ∈ files, f.fileName = active) → reconcileActive files active = active) ∧
    ((∀ f ∈ files, f.fileName ≠ active) →
      (files = [] → reconcileActive files active = []) ∧
      (∀ (g : FileData) (gs : List FileData), files = g :: gs →
        reconcileActive files active = g.fileName)) ∧
    (∀ del, (handleDeleteFile files active del).1 =
      files.filter (fun f => f.fileName != del)) ∧
    (∀ del, active = del →
      (files.filter (fun f => f.fileName != del) = [] →
        (handleDeleteFile files active del).2 = []) ∧
      (∀ (g : FileData) (gs : List FileData),
        files.filter (fun f => f.fileName != del) = g :: gs →
        (handleDeleteFile files active del).2 = g.fileName)) ∧
    (∀ f : FileData, handleDeleteFile [f] f.fileName f.fileName = ([], [])) := by
  refine ⟨?_, ?_, ?_, ?_, ?_⟩
  · intro hex
    unfold reconcileActive
    rw [if_pos ((any_name_iff files active).mpr hex)]
  · intro hall
    have hfa : files.any (fun f => f.fileName == active) = false := by
      rw [List.any_eq_false]
      intro f hf
      simp only [beq_iff_eq]
      exact hall f hf
    constructor
    · intro hnil
      subst hnil
      rfl
    · intro g gs hcons
      subst hcons
      unfold reconcileActive
      rw [hfa]
      simp
  · intro del
    by_cases hd : (active == del) = true <;> simp [handleDeleteFile, hd]
  · intro del hdel
    subst hdel
    constructor
    · intro hnil
      simp [handleDeleteFile, hnil]
    · intro g gs hcons
      simp [handleDeleteFile, hcons]
  · intro f
    simp [handleDeleteFile]

theorem active_file_reconciliation_witness :
    ((∃ f ∈ wStA.files, f.fileName = wNameB) → reconcileActive wStA.files wNameB = wNameB) ∧
    ((∀ f ∈ wStA.files, f.fileName ≠ wNameB) →
      (wStA.files = [] → reconcileActive wStA.files wNameB = []) ∧
      (∀ (g : FileData) (gs : List FileData), wStA.files = g :: gs →
        reconcileActive wStA.files wNameB = g.fileName)) ∧
    (∀ del, (handleDeleteFile wStA.files wNameB del).1 =
      wStA.files.filter (fun f => f.fileName != del)) ∧
    (∀ del, wNameB = del →
      (wStA.files.filter (fun f => f.fileName != del) = [] →
        (handleDeleteFile wStA.files wNameB del).2 = []) ∧
      (∀ (g : FileData) (gs : List FileData),
        wStA.files.filter (fun f => f.fileName != del) = g :: gs →
        (handleDeleteFile wStA.files wNameB del).2 = g.fileName)) ∧
    (∀ f : FileData, handleDeleteFile [f] f.fileName f.fileName = ([], [])) :=
  active_file_reconciliation wStA.files wNameB

/-- C8: `createFile` validation — an empty trimmed name is rejected with
the empty-name error, a case-insensitive duplicate is rejected with the
duplicate-name error (the FileSet and active selection unchanged on both
failures), and otherwise a new entry with empty content is appended and
made active. -/
theorem createFile_validation (files : List FileData) (active name : List Char) :
    (trimChars name = [] →
      createFile files active name = ((files, active), some CreateFileError.emptyName)) ∧
    (trimChars name ≠ [] →
      (∃ f ∈ files, toLowerChars f.fileName = toLowerChars (trimChars name)) →
      createFile files active name = ((files, active), some CreateFileError.duplicateName)) ∧
    (trimChars name ≠ [] →
      (∀ f ∈ files, toLowerChars f.fileName ≠ toLowerChars (trimChars name)) →
      createFile files active name =
        ((files ++ [{ fileName := trimChars name, content := [] }], trimChars name), none)) := by
  refine ⟨?_, ?_, ?_⟩
  · intro h
    simp [createFile, h]
  · intro hne hdup
    have hany : files.any
        (fun f => toLowerChars f.fileName == toLowerChars (trimChars name)) = true := by
      rw [List.any_eq_true]
      obtain ⟨f, hmem, heq⟩ := hdup
      exact ⟨f, hmem, by simp [heq]⟩
    simp only [createFile]
    rw [if_neg hne, if_pos hany]
  · intro hne hnodup
    have hany : files.any
        (fun f => toLowerChars f.fileName == toLowerChars (trimChars name)) = false := by
      rw [List.any_eq_false]
      intro f hf
      simp only [beq_iff_eq]
      exact hnodup f hf
    simp only [createFile]
    rw [if_neg hne, hany]
    simp

theorem createFile_validation_witness :
    ((trimChars wNameB = [] →
      createFile wStA.files wNameA wNameB =
        ((wStA.files, wNameA), some CreateFileError.emptyName)) ∧
    (trimChars wNameB ≠ [] →
      (∃ f ∈ wStA.files, toLowerChars f.fileName = toLowerChars (trimChars wNameB)) →
      createFile wStA.files wNameA wNameB =
        ((wStA.files, wNameA), some CreateFileError.duplicateName)) ∧
    (trimChars wNameB ≠ [] →
      (∀ f ∈ wStA.files, toLowerChars f.fileName ≠ toLowerChars (trimChars wNameB)) →
      createFile wStA.files wNameA wNameB =
        ((wStA.files ++ [{ fileName := trimChars wNameB, content := [] }],
          trimChars wNameB), none))) :=
  createFile_validation wStA.files wNameA wNameB

/-- C10: snippet-failure postcondition — a snippet fetch clears the
previously fetched snippets up front, so after a failed fetch (transport
error or response of the wrong shape) the snippet list is empty, an
error message is present, and the result does not depend on any
previously held snippet state. -/
theorem snippet_failure_clears (st : SnippetState) (resp : SnippetResponse)
    (h : resp.isFailure = true) :
    (handleFetchSnippets st resp).snippets = [] ∧
    (handleFetchSnippets st resp).snippetsError ≠ none ∧
    (∀ st2 : SnippetState, handleFetchSnippets st2 resp = handleFetchSnippets st resp) := by
  cases resp with
  | transportError msg => exact ⟨rfl, by simp [handleFetchSnippets], fun _ => rfl⟩
  | parsed o =>
    cases o with
    | none => exact ⟨rfl, by simp [handleFetchSnippets], fun _ => rfl⟩
    | some s => simp [SnippetResponse.isFailure] at h

theorem snippet_failure_clears_witness :
    ((SnippetResponse.transportError wTail).isFailure = true) ∧
    ((handleFetchSnippets wSnipState (SnippetResponse.transportError wTail)).snippets = [] ∧
     (handleFetchSnippets wSnipState (SnippetResponse.transportError wTail)).snippetsError ≠
       none ∧
     (∀ st2 : SnippetState,
       handleFetchSnippets st2 (SnippetResponse.transportError wTail) =
         handleFetchSnippets wSnipState (SnippetResponse.transportError wTail))) :=
  ⟨by decide, snippet_failure_clears wSnipState (SnippetResponse.transportError wTail)
    (by decide)⟩

theorem getSubstitution_no_dollar (matched pre post : List Char) :
    ∀ l : List Char, dollarChar ∉ l → getSubstitution matched pre post l = l := by
  intro l
  induction l with
  | nil => intro _; rfl
  | cons c rest ih =>
    intro hnd
    have hc : ¬ c = dollarChar := fun he => hnd (he ▸ List.mem_cons_self c rest)
    unfold getSubstitution
    rw [if_neg hc]
    refine congrArg (fun x => c :: x) ?_
    exact ih (fun hm => hnd (List.mem_cons_of_mem c hm))

theorem firstMatchPos_none (pat : List Char) (hpat : pat ≠ []) :
    ∀ s : List Char, (∀ i : Nat, leadMatch pat (s.drop i) = false) →
      firstMatchPos pat s = none := by
  intro s
  induction s with
  | nil =>
    intro _
    unfold firstMatchPos
    rw [if_neg (by simp [hpat])]
  | cons c rest ih =>
    intro hno
    have h0 : leadMatch pat (c :: rest) = false := by
      have := hno 0
      simpa using this
    unfold firstMatchPos
    rw [h0]
    simp only [Bool.false_eq_true, if_false]
    rw [ih (fun i => by have := hno (i + 1); simpa using this)]

theorem firstMatchPos_at (pat : List Char) :
    ∀ (u v : List Char),
      (∀ i : Nat, i < u.length → leadMatch pat ((u ++ (pat ++ v)).drop i) = false) →
      firstMatchPos pat (u ++ (pat ++ v)) = some u.length := by
  intro u
  induction u with
  | nil =>
    intro v _
    simp only [List.nil_append]
    cases hp : pat with
    | nil =>
      subst hp
      cases v with
      | nil => rfl
      | cons c rest =>
        simp only [List.nil_append]
        unfold firstMatchPos
        rw [if_pos (by simp [leadMatch])]
        rfl
    | cons p ps =>
      subst hp
      rw [List.cons_append]
      have hlm : leadMatch (p :: ps) (p :: (ps ++ v)) = true := by
        rw [← List.cons_append]
        simp [leadMatch, List.take_left]
      unfold firstMatchPos
      rw [hlm, if_pos rfl]
      rfl
  | cons c u2 ih =>
    intro v hno
    have h0 : leadMatch pat (c :: (u2 ++ (pat ++ v))) = false := by
      have := hno 0 (by simp)
      simpa using this
    rw [List.cons_append]
    unfold firstMatchPos
    rw [h0]
    simp only [Bool.false_eq_true, if_false]
    rw [ih v (fun i hi => by
      have := hno (i + 1) (by simp; omega)
      simpa using this)]
    rfl

theorem drop_append_both (u pat v : List Char) :
    (u ++ (pat ++ v)).drop (u.length + pat.length) = v := by
  induction u with
  | nil => simpa using List.drop_left pat v
  | cons c u2 ih => simpa [Nat.succ_add] using ih

theorem replaceFirst_no_occ (pat repl : List Char) (hpat : pat ≠ [])
    (s : List Char) (hno : ∀ i : Nat, leadMatch pat (s.drop i) = false) :
    replaceFirst pat repl s = s := by
  unfold replaceFirst
  rw [firstMatchPos_none pat hpat s hno]

theorem replaceFirst_first_occ (pat repl : List Char) (u v : List Char)
    (hfirst : ∀ i : Nat, i < u.length → leadMatch pat ((u ++ (pat ++ v)).drop i) = false) :
    replaceFirst pat repl (u ++ (pat ++ v)) =
      u ++ (getSubstitution pat u v repl ++ v) := by
  unfold replaceFirst
  rw [firstMatchPos_at pat u v hfirst]
  have htake : (u ++ (pat ++ v)).take u.length = u := List.take_left u (pat ++ v)
  have hdrop : (u ++ (pat ++ v)).drop (u.length + pat.length) = v :=
    drop_append_both u pat v
  dsimp only
  rw [htake, hdrop, List.append_assoc]

/-- C3 counterexample, two concrete FileSets. First: with an `.html` base
and a single `.css` file whose content is empty, the collected CSS text
is empty, yet the composer still injects an (empty) style element — so
injection is not conditioned on the collected text being non-empty.
Second: with a `.css` file whose content is `x$&y`, JS string-replacement
dollar-substitution expands `$&` into the matched `</head>` tag, so the
injected text is not exactly the collected file contents. -/
theorem css_injection_counterexample :
    (List.intercalate ['\n'] ((cssFilesOf cxFiles).map (fun f => f.content)) = [] ∧
     htmlContent cxFiles = ("<head><style></style></head>").data ∧
     htmlContent cxFiles ≠ ("<head></head>").data) ∧
    (List.intercalate ['\n'] ((cssFilesOf cx2Files).map (fun f => f.content)) =
       ("x$&y").data ∧
     htmlContent cx2Files = ("<head><style>x</head>y</style></head>").data ∧
     htmlContent cx2Files ≠ ("<head><style>x$&y</style></head>").data) := by decide

/-- C3 (amended): the composed preview applies the CSS step and then the
JS step to the base `.html` file's content; each step collects its files
in FileSet order, joins their contents (newline separators for CSS,
`;\n` for JS), and, if and only if at least one file with that extension
exists, splices the joined text — wrapped in a style/script element and
subjected to JS string-replacement dollar-substitution against the
matched tag and surrounding document — immediately before the first
`</head>` (resp. `</body>`), leaving the document unchanged when no such
tag occurs; whenever the collected contents contain no dollar character
the injected text is exactly the collected contents. -/
theorem compose_injection_rules (files : List FileData) (base : FileData)
    (hb : files.find? (fun f => tailMatch htmlExt f.fileName) = some base) :
    htmlContent files = injectJs files (injectCss files base.content) ∧
    (cssFilesOf files = [] → ∀ doc, injectCss files doc = doc) ∧
    (cssFilesOf files ≠ [] → ∀ u v : List Char,
      (∀ i : Nat, i < u.length →
        leadMatch headCloseTag ((u ++ (headCloseTag ++ v)).drop i) = false) →
      injectCss files (u ++ (headCloseTag ++ v)) =
        u ++ (getSubstitution headCloseTag u v
          (styleOpenTag ++
            List.intercalate ['\n'] ((cssFilesOf files).map (fun f => f.content)) ++
              styleCloseTag ++ headCloseTag) ++ v)) ∧
    (cssFilesOf files ≠ [] → ∀ u v : List Char,
      dollarChar ∉ List.intercalate ['\n'] ((cssFilesOf files).map (fun f => f.content)) →
      (∀ i : Nat, i < u.length →
        leadMatch headCloseTag ((u ++ (headCloseTag ++ v)).drop i) = false) →
      injectCss files (u ++ (headCloseTag ++ v)) =
        u ++ (styleOpenTag ++
          (List.intercalate ['\n'] ((cssFilesOf files).map (fun f => f.content)) ++
            (styleCloseTag ++ (headCloseTag ++ v))))) ∧
    (cssFilesOf files ≠ [] → ∀ doc : List Char,
      (∀ i : Nat, leadMatch headCloseTag (doc.drop i) = false) →
      injectCss files doc = doc) ∧
    (jsFilesOf files = [] → ∀ doc, injectJs files doc = doc) ∧
    (jsFilesOf files ≠ [] → ∀ u v : List Char,
      (∀ i : Nat, i < u.length →
        leadMatch bodyCloseTag ((u ++ (bodyCloseTag ++ v)).drop i) = false) →
      injectJs files (u ++ (bodyCloseTag ++ v)) =
        u ++ (getSubstitution bodyCloseTag u v
          (scriptOpenTag ++
            List.intercalate jsJoinSep ((jsFilesOf files).map (fun f => f.content)) ++
              scriptCloseTag ++ bodyCloseTag) ++ v)) ∧
    (jsFilesOf files ≠ [] → ∀ u v : List Char,
      dollarChar ∉ List.intercalate jsJoinSep ((jsFilesOf files).map (fun f => f.content)) →
      (∀ i : Nat, i < u.length →
        leadMatch bodyCloseTag ((u ++ (bodyCloseTag ++ v)).drop i) = false) →
      injectJs files (u ++ (bodyCloseTag ++ v)) =
        u ++ (scriptOpenTag ++
          (List.intercalate jsJoinSep ((jsFilesOf files).map (fun f => f.content)) ++
            (scriptCloseTag ++ (bodyCloseTag ++ v))))) ∧
    (jsFilesOf files ≠ [] → ∀ doc : List Char,
      (∀ i : Nat, leadMatch bodyCloseTag (doc.drop i) = false) →
      injectJs files doc = doc) := by
  have hcssrepl : ∀ u v : List Char,
      (∀ i : Nat, i < u.length →
        leadMatch headCloseTag ((u ++ (headCloseTag ++ v)).drop i) = false) →
      cssFilesOf files ≠ [] →
      injectCss files (u ++ (headCloseTag ++ v)) =
        u ++ (getSubstitution headCloseTag u v
          (styleOpenTag ++
            List.intercalate ['\n'] ((cssFilesOf files).map (fun f => f.content)) ++
              styleCloseTag ++ headCloseTag) ++ v) := by
    intro u v hfirst h
    simp only [injectCss]
    rw [if_pos (by simpa [List.length_pos] using h)]
    exact replaceFirst_first_occ headCloseTag _ u v hfirst
  have hjsrepl : ∀ u v : List Char,
      (∀ i : Nat, i < u.length →
        leadMatch bodyCloseTag ((u ++ (bodyCloseTag ++ v)).drop i) = false) →
      jsFilesOf files ≠ [] →
      injectJs files (u ++ (bodyCloseTag ++ v)) =
        u ++ (getSubstitution bodyCloseTag u v
          (scriptOpenTag ++
            List.intercalate jsJoinSep ((jsFilesOf files).map (fun f => f.content)) ++
              scriptCloseTag ++ bodyCloseTag) ++ v) := by
    intro u v hfirst h
    simp only [injectJs]
    rw [if_pos (by simpa [List.length_pos] using h)]
    exact replaceFirst_first_occ bodyCloseTag _ u v hfirst
  refine ⟨?_, ?_, ?_, ?_, ?_, ?_, ?_, ?_, ?_⟩
  · unfold htmlContent
    rw [hb]
  · intro h doc
    simp [injectCss, h]
  · intro h u v hfirst
    exact hcssrepl u v hfirst h
  · intro h u v hnd hfirst
    rw [hcssrepl u v hfirst h]
    rw [getSubstitution_no_dollar headCloseTag u v _ (by
      intro hmem
      simp only [List.mem_append] at hmem
      rcases hmem with ((h1 | h2) | h3) | h4
      · exact absurd h1 (by decide)
      · exact hnd h2
      · exact absurd h3 (by decide)
      · exact absurd h4 (by decide))]
    simp [List.append_assoc]
  · intro h doc hno
    simp only [injectCss]
    rw [if_pos (by simpa [List.length_pos] using h)]
    exact replaceFirst_no_occ headCloseTag _ (by decide) doc hno
  · intro h doc
    simp [injectJs, h]
  · intro h u v hfirst
    exact hjsrepl u v hfirst h
  · intro h u v hnd hfirst
    rw [hjsrepl u v hfirst h]
    rw [getSubstitution_no_dollar bodyCloseTag u v _ (by
      intro hmem
      simp only [List.mem_append] at hmem
      rcases hmem with ((h1 | h2) | h3) | h4
      · exact absurd h1 (by decide)
      · exact hnd h2
      · exact absurd h3 (by decide)
      · exact absurd h4 (by decide))]
    simp [List.append_assoc]
  · intro h doc hno
    simp only [injectJs]
    rw [if_pos (by simpa [List.length_pos] using h)]
    exact replaceFirst_no_occ bodyCloseTag _ (by decide) doc hno

theorem compose_injection_rules_witness :
    (wC3Files.find? (fun f => tailMatch htmlExt f.fileName) = some wC3Base) ∧
    (htmlContent wC3Files = injectJs wC3Files (injectCss wC3Files wC3Base.content) ∧
    (cssFilesOf wC3Files = [] → ∀ doc, injectCss wC3Files doc = doc) ∧
    (cssFilesOf wC3Files ≠ [] → ∀ u v : List Char,
      (∀ i : Nat, i < u.length →
        leadMatch headCloseTag ((u ++ (headCloseTag ++ v)).drop i) = false) →
      injectCss wC3Files (u ++ (headCloseTag ++ v)) =
        u ++ (getSubstitution headCloseTag u v
          (styleOpenTag ++
            List.intercalate ['\n'] ((cssFilesOf wC3Files).map (fun f => f.content)) ++
              styleCloseTag ++ headCloseTag) ++ v)) ∧
    (cssFilesOf wC3Files ≠ [] → ∀ u v : List Char,
      dollarChar ∉
        List.intercalate ['\n'] ((cssFilesOf wC3Files).map (fun f => f.content)) →
      (∀ i : Nat, i < u.length →
        leadMatch headCloseTag ((u ++ (headCloseTag ++ v)).drop i) = false) →
      injectCss wC3Files (u ++ (headCloseTag ++ v)) =
        u ++ (styleOpenTag ++
          (List.intercalate ['\n'] ((cssFilesOf wC3Files).map (fun f => f.content)) ++
            (styleCloseTag ++ (headCloseTag ++ v))))) ∧
    (cssFilesOf wC3Files ≠ [] → ∀ doc : List Char,
      (∀ i : Nat, leadMatch headCloseTag (doc.drop i) = false) →
      injectCss wC3Files doc = doc) ∧
    (jsFilesOf wC3Files = [] → ∀ doc, injectJs wC3Files doc = doc) ∧
    (jsFilesOf wC3Files ≠ [] → ∀ u v : List Char,
      (∀ i : Nat, i < u.length →
        leadMatch bodyCloseTag ((u ++ (bodyCloseTag ++ v)).drop i) = false) →
      injectJs wC3Files (u ++ (bodyCloseTag ++ v)) =
        u ++ (getSubstitution bodyCloseTag u v
          (scriptOpenTag ++
            List.intercalate jsJoinSep ((jsFilesOf wC3Files).map (fun f => f.content)) ++
              scriptCloseTag ++ bodyCloseTag) ++ v)) ∧
    (jsFilesOf wC3Files ≠ [] → ∀ u v : List Char,
      dollarChar ∉
        List.intercalate jsJoinSep ((jsFilesOf wC3Files).map (fun f => f.content)) →
      (∀ i : Nat, i < u.length →
        leadMatch bodyCloseTag ((u ++ (bodyCloseTag ++ v)).drop i) = false) →
      injectJs wC3Files (u ++ (bodyCloseTag ++ v)) =
        u ++ (scriptOpenTag ++
          (List.intercalate jsJoinSep ((jsFilesOf wC3Files).map (fun f => f.content)) ++
            (scriptCloseTag ++ (bodyCloseTag ++ v))))) ∧
    (jsFilesOf wC3Files ≠ [] → ∀ doc : List Char,
      (∀ i : Nat, leadMatch bodyCloseTag (doc.drop i) = false) →
      injectJs wC3Files doc = doc)) :=
  ⟨by decide, compose_injection_rules wC3Files wC3Base (by decide)⟩

end AppModel
